import Mathlib

/-!
Verification of `pymc3/glm/families.py`: a shallow embedding of the GLM
family descriptors (link functions, prior resolution, likelihood
construction) together with theorems about their behaviour.

The embedding models Python object state explicitly: prior mappings are
dictionary objects living in a heap (so that `copy`/`update` aliasing and
frame properties are faithfully represented), a `Model` records the random
variables and likelihood nodes registered in the model context, and
fallible operations return `Except` values carrying the Python error kind
and the model state at the point of failure.
-/

set_option maxHeartbeats 1000000

namespace GlmFamilies

/-- Symbolic tensor expressions: a named input (the linear-predictor
estimate) and the elementwise aesara operations used by the link
functions (`aet.nnet.sigmoid`, `aet.inv`, `aet.exp`). -/
inductive TensorExpr : Type
  | var (s : String)
  | sigmoid (e : TensorExpr)
  | inv (e : TensorExpr)
  | exp (e : TensorExpr)
  deriving DecidableEq

/-- The four link functions bound at module level in `families.py`:
`identity = Identity()`, `logit = aet.nnet.sigmoid`, `inverse = aet.inv`,
`exp = aet.exp`. -/
inductive LinkFun : Type
  | identity
  | logit
  | inverse
  | exp
  deriving DecidableEq

/-- Calling a link function on a tensor: `Identity.__call__` returns its
argument unchanged; the other three wrap the argument in the
corresponding aesara elementwise operation. -/
def applyLink : LinkFun → TensorExpr → TensorExpr
  | .identity, e => e
  | .logit, e => .sigmoid e
  | .inverse, e => .inv e
  | .exp, e => .exp e

/-- Modelled from the spec: the numeric semantics over the reals of the
aesara elementwise operations used as link functions (the aesara library
is an external collaborator and its code is not part of this repository).
Per the spec, `logit` is the logistic sigmoid, `inverse` is the
reciprocal, `exp` the exponential. -/
noncomputable def evalExpr (env : String → ℝ) : TensorExpr → ℝ
  | .var s => env s
  | .sigmoid e => 1 / (1 + Real.exp (-(evalExpr env e)))
  | .inv e => (evalExpr env e)⁻¹
  | .exp e => Real.exp (evalExpr env e)

/-- A value stored in a prior dictionary or passed as a likelihood
parameter: a plain number (`numbers.Number`), a numeric array
(`np.ndarray`/`np.generic`, identified by the reference of the array
object so that sharing is observable), a symbolic prior-distribution
specification, the handle of a registered random variable, or a tensor
expression (the link-transformed estimate). -/
inductive DVal : Type
  | num (q : ℚ)
  | arr (a : Nat)
  | dist (d : String)
  | rv (nm : String)
  | expr (e : TensorExpr)
  deriving DecidableEq

/-- The `isinstance(val, (numbers.Number, np.ndarray, np.generic))` test
in `Family._get_priors`. -/
def isNumericDVal : DVal → Bool
  | .num _ => true
  | .arr _ => true
  | _ => false

/-- Association-list lookup (first binding wins), modelling Python
dictionary lookup. -/
def dlookup {κ α : Type} [DecidableEq κ] (k : κ) : List (κ × α) → Option α
  | [] => none
  | (k2, v) :: rest => if k2 = k then some v else dlookup k rest

/-- Python dictionary item assignment `d[k] = v`: replace the value of
the (first) binding of `k` in place if the key is present, otherwise
append the new binding at the end (Python dictionaries preserve
insertion order and never hold a key twice). -/
def dictSet {κ α : Type} [DecidableEq κ] : List (κ × α) → κ → α → List (κ × α)
  | [], k, v => [(k, v)]
  | (k2, w) :: rest, k, v =>
    if k2 = k then (k, v) :: rest else (k2, w) :: dictSet rest k v

/-- Python `d.update(ov)`: item assignment for every binding of `ov` in
order. -/
def dictUpdate {κ α : Type} [DecidableEq κ] (d : List (κ × α)) (ov : List (κ × α)) :
    List (κ × α) :=
  ov.foldl (fun acc kv => dictSet acc kv.1 kv.2) d

/-- The entries of one dictionary object. -/
abbrev DictEntries := List (String × DVal)

/-- A heap of dictionary objects, so that `copy.copy` (allocate a new
dictionary with the same entries) and in-place `update` are
distinguishable from rebinding, and aliasing is observable. -/
structure Heap where
  dicts : List (Nat × DictEntries)
  next : Nat
  deriving DecidableEq

def Heap.lookup (h : Heap) (r : Nat) : Option DictEntries := dlookup r h.dicts

def Heap.alloc (h : Heap) (d : DictEntries) : Nat × Heap :=
  (h.next, ⟨(h.next, d) :: h.dicts, h.next + 1⟩)

/-- Apply `f` to the entries of the dictionary object bound at `r`. -/
def heapWrite (r : Nat) (f : DictEntries → DictEntries) :
    List (Nat × DictEntries) → List (Nat × DictEntries)
  | [] => []
  | (r1, d) :: rest =>
    if r1 = r then (r1, f d) :: rest else (r1, d) :: heapWrite r f rest

/-- In-place item assignment on the dictionary object at reference `r`. -/
def Heap.writeKey (h : Heap) (r : Nat) (k : String) (v : DVal) : Heap :=
  ⟨heapWrite r (fun d => dictSet d k v) h.dicts, h.next⟩

/-- In-place replacement of the entries of the dictionary object at `r`
(used to model `d.update(ov)` as one write). -/
def Heap.setEntries (h : Heap) (r : Nat) (d : DictEntries) : Heap :=
  ⟨heapWrite r (fun _ => d) h.dicts, h.next⟩

/-- Well-formedness: every allocated reference is below the allocation
counter. -/
def Heap.WF (h : Heap) : Prop := ∀ p ∈ h.dicts, p.1 < h.next

instance (h : Heap) : Decidable h.WF :=
  decidable_of_iff (∀ p ∈ h.dicts, p.1 < h.next) Iff.rfl

/-- The five likelihood distribution constructors referenced by the
concrete families. -/
inductive LikName : Type
  | normal
  | studentT
  | binomial
  | poisson
  | negativeBinomial
  deriving DecidableEq

/-- An observed likelihood node: distribution, node name, observed data
and the keyword parameter mapping it was constructed with. -/
structure LikNode where
  dist : LikName
  name : String
  observed : List ℚ
  params : List (String × DVal)
  deriving DecidableEq

/-- The model context: the named random variables and the likelihood
nodes registered in it. -/
structure Model where
  rvs : List (String × DVal)
  obs : List LikNode
  deriving DecidableEq

/-- Modelled from the spec: `model.register_rv(val, name)` of
`pymc3.model` (not under the sources at hand) names the distribution,
registers it in the model, and returns a handle to the new variable; the
handle is identified here by the variable's name. -/
def Model.register_rv (m : Model) (v : DVal) (nm : String) : Model :=
  ⟨m.rvs ++ [(nm, v)], m.obs⟩

/-- The Python error kinds that the embedded operations can raise. -/
inductive PyErr : Type
  | typeError
  | attributeError
  | keyError
  deriving DecidableEq

/-- Modelled from the spec: `modelcontext(model)` of `pymc3.model` (not
under the sources at hand) returns the explicitly supplied model if any,
else the ambient context, and raises a `TypeError` if neither is
available. Errors carry the model state visible at the failure (none
here, since no context was found). -/
def modelcontext (modelArg ambient : Option Model) :
    Except (PyErr × Option Model) Model :=
  match modelArg with
  | some m => .ok m
  | none =>
    match ambient with
    | some m => .ok m
    | none => .error (.typeError, none)

/-- An attribute value of a `Family` object: `None`, a reference to a
prior dictionary object, a link function, a likelihood constructor, a
string (the `parent` name), or a number. -/
inductive Attr : Type
  | pvNone
  | dictRef (r : Nat)
  | linkA (l : LinkFun)
  | likA (l : LikName)
  | strA (s : String)
  | numA (q : ℚ)
  deriving DecidableEq

/-- A `Family` instance: its class attribute table and its own instance
attribute dictionary (Python attribute lookup reads the instance
dictionary first, then the class). -/
structure FamilyInst where
  cls : List (String × Attr)
  idict : List (String × Attr)
  deriving DecidableEq

def FamilyInst.getattr (i : FamilyInst) (k : String) : Option Attr :=
  match dlookup k i.idict with
  | some v => some v
  | none => dlookup k i.cls

def FamilyInst.setattr (i : FamilyInst) (k : String) (v : Attr) : FamilyInst :=
  ⟨i.cls, dictSet i.idict k v⟩

/-- The name mangling done by both `_get_priors` and `create_likelihood`:
`if name: name = name + "_"`. -/
def prefName (nm : String) : String := if nm = "" then nm else nm ++ "_"

/-- The loop of `Family.__init__` over the keyword arguments: for the key
`"priors"`, rebind `self.priors` to `copy(self.priors)` (a shallow copy:
a fresh dictionary object with the same entries) and then update it in
place with the supplied mapping; `copy(None)` is `None` and
`None.update` raises an `AttributeError`, as does `.update` on any other
non-dictionary value. Every other key is set directly on the instance
with `setattr`. -/
def initLoop (h : Heap) (inst : FamilyInst) :
    List (String × Attr) → Except PyErr (FamilyInst × Heap)
  | [] => .ok (inst, h)
  | (k, v) :: rest =>
    if k = "priors" then
      match inst.getattr "priors" with
      | some (.dictRef r) =>
        match h.lookup r with
        | some de =>
          let a := h.alloc de
          let inst1 := inst.setattr "priors" (.dictRef a.1)
          match v with
          | .dictRef rOv =>
            match a.2.lookup rOv with
            | some ov => initLoop (a.2.setEntries a.1 (dictUpdate de ov)) inst1 rest
            | none => .error .keyError
          | _ => .error .typeError
        | none => .error .keyError
      | some .pvNone => .error .attributeError
      | some _ => .error .attributeError
      | none => .error .attributeError
    else initLoop h (inst.setattr k v) rest

/-- `Family.__init__(**kwargs)`: process the keyword overrides starting
from an instance with an empty instance dictionary. -/
def familyInit (cls : List (String × Attr)) (kwargs : List (String × Attr))
    (h : Heap) : Except PyErr (FamilyInst × Heap) :=
  initLoop h ⟨cls, []⟩ kwargs

/-- The loop of `Family._get_priors` over `self.priors.items()`: numeric
values (numbers and arrays) are stored into the fresh result dictionary
unchanged; any other value is registered as a named random variable and
the result dictionary receives the variable's handle. -/
def resolveLoop (pr : Nat) (nm : String) (m : Model) (h : Heap) :
    List (String × DVal) → Model × Heap
  | [] => (m, h)
  | (key, val) :: rest =>
    match val with
    | .num q => resolveLoop pr nm m (h.writeKey pr key (.num q)) rest
    | .arr a => resolveLoop pr nm m (h.writeKey pr key (.arr a)) rest
    | other =>
      resolveLoop pr nm (m.register_rv other (nm ++ key))
        (h.writeKey pr key (.rv (nm ++ key))) rest

/-- `Family._get_priors(model=None, name="")`: mangle the name, resolve
the model context, allocate the fresh result dictionary `priors = {}`,
and iterate over `self.priors.items()`; when `self.priors` is `None` the
iteration raises an `AttributeError`. Returns the reference of the
result dictionary together with the updated model and heap. -/
def getPriorsM (inst : FamilyInst) (modelArg ambient : Option Model)
    (nm0 : String) (h : Heap) :
    Except (PyErr × Option Model) (Nat × Model × Heap) :=
  let nm := prefName nm0
  match modelcontext modelArg ambient with
  | .error e => .error e
  | .ok m =>
    match inst.getattr "priors" with
    | some (.dictRef r) =>
      match h.lookup r with
      | some entries =>
        let a := h.alloc []
        let res := resolveLoop a.1 nm m a.2 entries
        .ok (a.1, res.1, res.2)
      | none => .error (.keyError, some m)
    | some .pvNone => .error (.attributeError, some m)
    | some _ => .error (.attributeError, some m)
    | none => .error (.attributeError, some m)

/-- `Family.create_likelihood(name, y_est, y_data, model=None)`: resolve
the priors, overwrite the `parent` entry of the resolved dictionary with
`self.link(y_est)`, mangle the name, and construct the likelihood node
named `name + "y"` with the resolved dictionary as keyword parameters,
registering the node in the model context (modelled from the spec: the
distribution constructors of `pymc3.distributions` are not under the
sources at hand and, per the spec, register the observed likelihood in
the model context and return it). -/
def createLikelihood (inst : FamilyInst) (nm0 : String) (yEst : TensorExpr)
    (yData : List ℚ) (modelArg ambient : Option Model) (h : Heap) :
    Except (PyErr × Option Model) (LikNode × Model × Heap) :=
  match getPriorsM inst modelArg ambient nm0 h with
  | .error e => .error e
  | .ok (pr, m1, h1) =>
    match inst.getattr "link" with
    | some (.linkA l) =>
      match inst.getattr "parent" with
      | some (.strA p) =>
        let h2 := h1.writeKey pr p (.expr (applyLink l yEst))
        let nm := prefName nm0
        match inst.getattr "likelihood" with
        | some (.likA lk) =>
          match h2.lookup pr with
          | some params =>
            let node : LikNode := ⟨lk, nm ++ "y", yData, params⟩
            .ok (node, ⟨m1.rvs, m1.obs ++ [node]⟩, h2)
          | none => .error (.keyError, some m1)
        | _ => .error (.attributeError, some m1)
      | _ => .error (.attributeError, some m1)
    | _ => .error (.attributeError, some m1)

/-! ## The concrete family classes

The initial heap holds the two class-level dictionary objects defined in
the source: the base class's `priors = {}` at reference 0 and
`Binomial.priors = {"n": 1}` at reference 1. The other four subclasses
set `priors = None`. -/

def initialHeap : Heap := ⟨[(0, []), (1, [("n", DVal.num 1)])], 2⟩

def FamilyBaseClass : List (String × Attr) :=
  [("priors", .dictRef 0), ("link", .pvNone)]

def StudentTClass : List (String × Attr) :=
  [("link", .linkA .identity), ("likelihood", .likA .studentT),
   ("parent", .strA "mu"), ("priors", .pvNone)]

def NormalClass : List (String × Attr) :=
  [("link", .linkA .identity), ("likelihood", .likA .normal),
   ("parent", .strA "mu"), ("priors", .pvNone)]

def BinomialClass : List (String × Attr) :=
  [("link", .linkA .logit), ("likelihood", .likA .binomial),
   ("parent", .strA "p"), ("priors", .dictRef 1)]

def PoissonClass : List (String × Attr) :=
  [("link", .linkA .exp), ("likelihood", .likA .poisson),
   ("parent", .strA "mu"), ("priors", .pvNone)]

def NegativeBinomialClass : List (String × Attr) :=
  [("link", .linkA .exp), ("likelihood", .likA .negativeBinomial),
   ("parent", .strA "mu"), ("priors", .pvNone)]

def binomialDefault : FamilyInst := ⟨BinomialClass, []⟩

/-- The contribution of one prior entry to the model's registered
variables: numeric values register nothing, all others register the
value under the mangled name. -/
def regOf (nm : String) (kv : String × DVal) : Option (String × DVal) :=
  if isNumericDVal kv.2 then none else some (nm ++ kv.1, kv.2)

/-- The entry placed into the resolved dictionary for one prior entry:
numeric values pass through unchanged, all others are replaced by the
handle of the registered variable. -/
def resolveEntry (nm : String) (kv : String × DVal) : String × DVal :=
  if isNumericDVal kv.2 then kv else (kv.1, .rv (nm ++ kv.1))

/-! ## Dictionary lemmas -/

theorem dlookup_mem {κ α : Type} [DecidableEq κ] {k : κ} {v : α} :
    ∀ {d : List (κ × α)}, dlookup k d = some v → (k, v) ∈ d := by
  intro d
  induction d with
  | nil => intro hc; simp [dlookup] at hc
  | cons p rest ih =>
    intro hd
    obtain ⟨k2, w⟩ := p
    by_cases hk : k2 = k
    · subst hk
      simp [dlookup] at hd
      subst hd
      exact List.mem_cons_self _ _
    · simp [dlookup, hk] at hd
      exact List.mem_cons_of_mem _ (ih hd)

theorem dlookup_append {κ α : Type} [DecidableEq κ] (k : κ) (d1 d2 : List (κ × α)) :
    dlookup k (d1 ++ d2) =
      match dlookup k d1 with
      | some v => some v
      | none => dlookup k d2 := by
  induction d1 with
  | nil => simp [dlookup]
  | cons p rest ih =>
    obtain ⟨k2, w⟩ := p
    by_cases hk : k2 = k <;> simp [dlookup, hk, ih]

theorem dictSet_of_lookup_none {κ α : Type} [DecidableEq κ] {k : κ} (v : α) :
    ∀ {d : List (κ × α)}, dlookup k d = none → dictSet d k v = d ++ [(k, v)] := by
  intro d
  induction d with
  | nil => intro _; rfl
  | cons p rest ih =>
    intro hd
    obtain ⟨k2, w⟩ := p
    by_cases hk : k2 = k
    · simp [dlookup, hk] at hd
    · simp only [dlookup, hk, if_false] at hd
      simp [dictSet, hk, ih hd]

theorem dlookup_dictSet_self {κ α : Type} [DecidableEq κ] (d : List (κ × α))
    (k : κ) (v : α) : dlookup k (dictSet d k v) = some v := by
  induction d with
  | nil => simp [dictSet, dlookup]
  | cons p rest ih =>
    obtain ⟨k2, w⟩ := p
    by_cases hk : k2 = k
    · simp [dictSet, hk, dlookup]
    · simp [dictSet, hk, dlookup, ih]

theorem dlookup_dictSet_of_ne {κ α : Type} [DecidableEq κ] {k2 k : κ}
    (hne : k2 ≠ k) (d : List (κ × α)) (v : α) :
    dlookup k2 (dictSet d k v) = dlookup k2 d := by
  induction d with
  | nil => simp [dictSet, dlookup, Ne.symm hne]
  | cons p rest ih =>
    obtain ⟨k1, w⟩ := p
    by_cases hk : k1 = k
    · subst hk
      simp [dictSet, dlookup, Ne.symm hne]
    · by_cases hk2 : k1 = k2 <;> simp [dictSet, hk, dlookup, hk2, hne, ih]

theorem mem_dictSet_of_ne {κ α : Type} [DecidableEq κ] {k2 k : κ} {w : α}
    (hne : k2 ≠ k) {d : List (κ × α)} (hm : (k2, w) ∈ d) (v : α) :
    (k2, w) ∈ dictSet d k v := by
  induction d with
  | nil => simp at hm
  | cons p rest ih =>
    obtain ⟨k1, u⟩ := p
    by_cases hk : k1 = k
    · subst hk
      rcases List.mem_cons.mp hm with heq | htail
      · cases heq
        exact absurd rfl hne
      · simp only [dictSet, if_pos rfl]
        exact List.mem_cons_of_mem _ htail
    · simp only [dictSet, hk, if_false]
      rcases List.mem_cons.mp hm with heq | htail
      · cases heq
        exact List.mem_cons_self _ _
      · exact List.mem_cons_of_mem _ (ih htail)

theorem mem_dictSet_self {κ α : Type} [DecidableEq κ] (d : List (κ × α))
    (k : κ) (v : α) : (k, v) ∈ dictSet d k v :=
  dlookup_mem (dlookup_dictSet_self d k v)

theorem mem_dictUpdate_left {κ α : Type} [DecidableEq κ] {k : κ} {w : α} :
    ∀ (ov : List (κ × α)) {d : List (κ × α)}, (k, w) ∈ d →
      k ∉ ov.map Prod.fst → (k, w) ∈ dictUpdate d ov := by
  intro ov
  induction ov with
  | nil => intro d hm _; exact hm
  | cons p rest ih =>
    intro d hm hk
    obtain ⟨k1, v1⟩ := p
    simp only [List.map_cons, List.mem_cons, not_or] at hk
    exact ih (mem_dictSet_of_ne hk.1 hm v1) hk.2

theorem mem_dictUpdate_right {κ α : Type} [DecidableEq κ] :
    ∀ (ov : List (κ × α)) (d : List (κ × α)), (ov.map Prod.fst).Nodup →
      ∀ (k : κ) (w : α), (k, w) ∈ ov → (k, w) ∈ dictUpdate d ov := by
  intro ov
  induction ov with
  | nil => intro d _ k w hc; simp at hc
  | cons p rest ih =>
    intro d hnd k w hm
    obtain ⟨k1, v1⟩ := p
    simp only [List.map_cons, List.nodup_cons] at hnd
    rcases List.mem_cons.mp hm with heq | htail
    · cases heq
      exact mem_dictUpdate_left rest (mem_dictSet_self d k w) hnd.1
    · exact ih (dictSet d k1 v1) hnd.2 k w htail

/-! ## Heap lemmas -/

theorem dlookup_heapWrite_self (r : Nat) (f : DictEntries → DictEntries) :
    ∀ ds : List (Nat × DictEntries),
      dlookup r (heapWrite r f ds) = (dlookup r ds).map f := by
  intro ds
  induction ds with
  | nil => simp [heapWrite, dlookup]
  | cons p rest ih =>
    obtain ⟨r1, d1⟩ := p
    by_cases hr : r1 = r
    · subst hr; simp [heapWrite, dlookup]
    · simp [heapWrite, hr, dlookup, ih]

theorem dlookup_heapWrite_of_ne {r2 r : Nat} (hne : r2 ≠ r)
    (f : DictEntries → DictEntries) :
    ∀ ds : List (Nat × DictEntries),
      dlookup r2 (heapWrite r f ds) = dlookup r2 ds := by
  intro ds
  induction ds with
  | nil => simp [heapWrite]
  | cons p rest ih =>
    obtain ⟨r1, d1⟩ := p
    by_cases hr : r1 = r
    · subst hr
      simp [heapWrite, dlookup, Ne.symm hne]
    · by_cases hr2 : r1 = r2 <;> simp [heapWrite, hr, dlookup, hr2, hne, ih]

theorem Heap.lookup_writeKey_self (h : Heap) (r : Nat) (k : String) (v : DVal) :
    (h.writeKey r k v).lookup r = (h.lookup r).map (fun d => dictSet d k v) :=
  dlookup_heapWrite_self r _ h.dicts

theorem Heap.lookup_writeKey_of_ne (h : Heap) {r2 r : Nat} (hne : r2 ≠ r)
    (k : String) (v : DVal) : (h.writeKey r k v).lookup r2 = h.lookup r2 :=
  dlookup_heapWrite_of_ne hne _ h.dicts

theorem Heap.lookup_setEntries_self (h : Heap) (r : Nat) (d : DictEntries) :
    (h.setEntries r d).lookup r = (h.lookup r).map (fun _ => d) :=
  dlookup_heapWrite_self r _ h.dicts

theorem Heap.lookup_setEntries_of_ne (h : Heap) {r2 r : Nat} (hne : r2 ≠ r)
    (d : DictEntries) : (h.setEntries r d).lookup r2 = h.lookup r2 :=
  dlookup_heapWrite_of_ne hne _ h.dicts

theorem Heap.lookup_alloc_self (h : Heap) (d : DictEntries) :
    (h.alloc d).2.lookup (h.alloc d).1 = some d := by
  simp [Heap.alloc, Heap.lookup, dlookup]

theorem Heap.lookup_alloc_of_ne (h : Heap) (d : DictEntries) {r2 : Nat}
    (hne : r2 ≠ h.next) : (h.alloc d).2.lookup r2 = h.lookup r2 := by
  simp [Heap.alloc, Heap.lookup, dlookup, Ne.symm hne]

theorem Heap.lookup_lt_next {h : Heap} (hwf : h.WF) {r : Nat} {d : DictEntries}
    (hl : h.lookup r = some d) : r < h.next :=
  hwf (r, d) (dlookup_mem hl)

/-! ## Behaviour of the prior-resolution loop -/

theorem resolveLoop_frame (pr : Nat) (nm : String) :
    ∀ (entries : List (String × DVal)) (m : Model) (h : Heap),
      (∀ r2, r2 ≠ pr →
        (resolveLoop pr nm m h entries).2.lookup r2 = h.lookup r2) ∧
      (resolveLoop pr nm m h entries).2.next = h.next := by
  intro entries
  induction entries with
  | nil => intro m h; exact ⟨fun _ _ => rfl, rfl⟩
  | cons kv rest ih =>
    intro m h
    obtain ⟨key, val⟩ := kv
    have step : ∀ (m2 : Model) (v2 : DVal),
        (∀ r2, r2 ≠ pr →
          (resolveLoop pr nm m2 (h.writeKey pr key v2) rest).2.lookup r2 =
            h.lookup r2) ∧
        (resolveLoop pr nm m2 (h.writeKey pr key v2) rest).2.next = h.next := by
      intro m2 v2
      refine ⟨fun r2 hr2 => ?_, ?_⟩
      · rw [(ih m2 (h.writeKey pr key v2)).1 r2 hr2,
          Heap.lookup_writeKey_of_ne h hr2]
      · rw [(ih m2 (h.writeKey pr key v2)).2]
        rfl
    cases val with
    | num q => exact step m (.num q)
    | arr a => exact step m (.arr a)
    | dist d => exact step (m.register_rv (.dist d) (nm ++ key)) (.rv (nm ++ key))
    | rv s => exact step (m.register_rv (.rv s) (nm ++ key)) (.rv (nm ++ key))
    | expr e => exact step (m.register_rv (.expr e) (nm ++ key)) (.rv (nm ++ key))

theorem resolveLoop_spec (pr : Nat) (nm : String) :
    ∀ (entries : List (String × DVal)) (m : Model) (h : Heap) (acc : DictEntries),
      h.lookup pr = some acc →
      (∀ k, k ∈ entries.map Prod.fst → dlookup k acc = none) →
      (entries.map Prod.fst).Nodup →
      (resolveLoop pr nm m h entries).1 =
        ⟨m.rvs ++ entries.filterMap (regOf nm), m.obs⟩ ∧
      (resolveLoop pr nm m h entries).2.lookup pr =
        some (acc ++ entries.map (resolveEntry nm)) := by
  intro entries
  induction entries with
  | nil =>
    intro m h acc hacc _ _
    constructor
    · simp [resolveLoop]
    · simpa [resolveLoop] using hacc
  | cons kv rest ih =>
    intro m h acc hacc hfresh hnd
    obtain ⟨key, val⟩ := kv
    simp only [List.map_cons, List.nodup_cons] at hnd
    have hkey : dlookup key acc = none := hfresh key (by simp)
    have hfresh2 : ∀ k, k ∈ rest.map Prod.fst → dlookup k acc = none :=
      fun k hk => hfresh k (by simp [hk])
    have step : ∀ (m2 : Model) (v2 : DVal),
        (resolveLoop pr nm m2 (h.writeKey pr key v2) rest).1 =
          ⟨m2.rvs ++ rest.filterMap (regOf nm), m2.obs⟩ ∧
        (resolveLoop pr nm m2 (h.writeKey pr key v2) rest).2.lookup pr =
          some ((acc ++ [(key, v2)]) ++ rest.map (resolveEntry nm)) := by
      intro m2 v2
      have hacc2 : (h.writeKey pr key v2).lookup pr = some (acc ++ [(key, v2)]) := by
        rw [Heap.lookup_writeKey_self, hacc]
        simp [dictSet_of_lookup_none v2 hkey]
      refine ih m2 (h.writeKey pr key v2) (acc ++ [(key, v2)]) hacc2 ?_ hnd.2
      intro k hk
      rw [dlookup_append, hfresh2 k hk]
      have hkne : key ≠ k := fun hc => hnd.1 (hc ▸ hk)
      simp [dlookup, hkne]
    cases val with
    | num q =>
      obtain ⟨h1, h2⟩ := step m (.num q)
      constructor
      · rw [show resolveLoop pr nm m h ((key, DVal.num q) :: rest) =
            resolveLoop pr nm m (h.writeKey pr key (.num q)) rest from rfl, h1]
        simp [regOf, isNumericDVal]
      · rw [show resolveLoop pr nm m h ((key, DVal.num q) :: rest) =
            resolveLoop pr nm m (h.writeKey pr key (.num q)) rest from rfl, h2]
        simp [resolveEntry, isNumericDVal]
    | arr a =>
      obtain ⟨h1, h2⟩ := step m (.arr a)
      constructor
      · rw [show resolveLoop pr nm m h ((key, DVal.arr a) :: rest) =
            resolveLoop pr nm m (h.writeKey pr key (.arr a)) rest from rfl, h1]
        simp [regOf, isNumericDVal]
      · rw [show resolveLoop pr nm m h ((key, DVal.arr a) :: rest) =
            resolveLoop pr nm m (h.writeKey pr key (.arr a)) rest from rfl, h2]
        simp [resolveEntry, isNumericDVal]
    | dist d =>
      obtain ⟨h1, h2⟩ := step (m.register_rv (.dist d) (nm ++ key)) (.rv (nm ++ key))
      constructor
      · rw [show resolveLoop pr nm m h ((key, DVal.dist d) :: rest) =
            resolveLoop pr nm (m.register_rv (.dist d) (nm ++ key))
              (h.writeKey pr key (.rv (nm ++ key))) rest from rfl, h1]
        simp [regOf, isNumericDVal, Model.register_rv]
      · rw [show resolveLoop pr nm m h ((key, DVal.dist d) :: rest) =
            resolveLoop pr nm (m.register_rv (.dist d) (nm ++ key))
              (h.writeKey pr key (.rv (nm ++ key))) rest from rfl, h2]
        simp [resolveEntry, isNumericDVal]
    | rv s =>
      obtain ⟨h1, h2⟩ := step (m.register_rv (.rv s) (nm ++ key)) (.rv (nm ++ key))
      constructor
      · rw [show resolveLoop pr nm m h ((key, DVal.rv s) :: rest) =
            resolveLoop pr nm (m.register_rv (.rv s) (nm ++ key))
              (h.writeKey pr key (.rv (nm ++ key))) rest from rfl, h1]
        simp [regOf, isNumericDVal, Model.register_rv]
      · rw [show resolveLoop pr nm m h ((key, DVal.rv s) :: rest) =
            resolveLoop pr nm (m.register_rv (.rv s) (nm ++ key))
              (h.writeKey pr key (.rv (nm ++ key))) rest from rfl, h2]
        simp [resolveEntry, isNumericDVal]
    | expr e =>
      obtain ⟨h1, h2⟩ := step (m.register_rv (.expr e) (nm ++ key)) (.rv (nm ++ key))
      constructor
      · rw [show resolveLoop pr nm m h ((key, DVal.expr e) :: rest) =
            resolveLoop pr nm (m.register_rv (.expr e) (nm ++ key))
              (h.writeKey pr key (.rv (nm ++ key))) rest from rfl, h1]
        simp [regOf, isNumericDVal, Model.register_rv]
      · rw [show resolveLoop pr nm m h ((key, DVal.expr e) :: rest) =
            resolveLoop pr nm (m.register_rv (.expr e) (nm ++ key))
              (h.writeKey pr key (.rv (nm ++ key))) rest from rfl, h2]
        simp [resolveEntry, isNumericDVal]

/-! ## Dissection of `_get_priors` and `create_likelihood` -/

theorem getPriorsM_ok_spec {inst : FamilyInst} {m : Model} {nm0 : String}
    {h : Heap} {pr : Nat} {m' : Model} {h' : Heap} {r : Nat} {entries : DictEntries}
    (hpri : inst.getattr "priors" = some (.dictRef r))
    (hr : h.lookup r = some entries)
    (hnd : (entries.map Prod.fst).Nodup)
    (hok : getPriorsM inst none (some m) nm0 h = .ok (pr, m', h')) :
    pr = h.next ∧
    m' = ⟨m.rvs ++ entries.filterMap (regOf (prefName nm0)), m.obs⟩ ∧
    h'.lookup pr = some (entries.map (resolveEntry (prefName nm0))) ∧
    (∀ r2, r2 ≠ pr → h'.lookup r2 = h.lookup r2) ∧
    h'.next = h.next + 1 := by
  simp only [getPriorsM, modelcontext, hpri, hr, Heap.alloc,
    Except.ok.injEq, Prod.mk.injEq] at hok
  obtain ⟨hpr, hm, hh⟩ := hok
  have hspec := resolveLoop_spec h.next (prefName nm0) entries m
    ⟨(h.next, []) :: h.dicts, h.next + 1⟩ []
    (by simp [Heap.lookup, dlookup]) (by intro k _; rfl) hnd
  have hframe := resolveLoop_frame h.next (prefName nm0) entries m
    ⟨(h.next, []) :: h.dicts, h.next + 1⟩
  subst hpr
  refine ⟨rfl, ?_, ?_, ?_, ?_⟩
  · rw [← hm, hspec.1]
  · rw [← hh]
    simpa using hspec.2
  · intro r2 hr2
    rw [← hh, hframe.1 r2 hr2]
    exact Heap.lookup_alloc_of_ne h [] hr2
  · rw [← hh, hframe.2]

theorem getPriorsM_frame {inst : FamilyInst} {ma amb : Option Model}
    {nm0 : String} {h : Heap} {pr : Nat} {m' : Model} {h' : Heap}
    (hok : getPriorsM inst ma amb nm0 h = .ok (pr, m', h')) :
    pr = h.next ∧ (∀ r2, r2 ≠ h.next → h'.lookup r2 = h.lookup r2) ∧
    h'.next = h.next + 1 := by
  unfold getPriorsM at hok
  cases hmc : modelcontext ma amb with
  | error e => simp [hmc] at hok
  | ok m =>
    simp only [hmc] at hok
    cases hg : inst.getattr "priors" with
    | none => simp [hg] at hok
    | some a =>
      cases a with
      | pvNone => simp [hg] at hok
      | linkA l => simp [hg] at hok
      | likA l => simp [hg] at hok
      | strA s => simp [hg] at hok
      | numA q => simp [hg] at hok
      | dictRef r =>
        simp only [hg] at hok
        cases he : h.lookup r with
        | none => simp [he] at hok
        | some entries =>
          simp only [he, Heap.alloc, Except.ok.injEq, Prod.mk.injEq] at hok
          obtain ⟨hpr, _, hh⟩ := hok
          have hframe := resolveLoop_frame h.next (prefName nm0) entries m
            ⟨(h.next, []) :: h.dicts, h.next + 1⟩
          subst hpr
          refine ⟨rfl, ?_, ?_⟩
          · intro r2 hr2
            rw [← hh, hframe.1 r2 hr2]
            exact Heap.lookup_alloc_of_ne h [] hr2
          · rw [← hh, hframe.2]

theorem getPriorsM_ok_entries {inst : FamilyInst} {ma amb : Option Model}
    {nm0 : String} {h : Heap} {pr : Nat} {m' : Model} {h' : Heap} {r : Nat}
    (hpri : inst.getattr "priors" = some (.dictRef r))
    (hok : getPriorsM inst ma amb nm0 h = .ok (pr, m', h')) :
    ∃ entries, h.lookup r = some entries := by
  unfold getPriorsM at hok
  cases hmc : modelcontext ma amb with
  | error e => simp [hmc] at hok
  | ok m =>
    simp only [hmc, hpri] at hok
    cases he : h.lookup r with
    | none => simp [he] at hok
    | some entries => exact ⟨entries, rfl⟩

theorem createLikelihood_ok_spec {inst : FamilyInst} {nm0 : String}
    {yEst : TensorExpr} {yData : List ℚ} {ma amb : Option Model} {h : Heap}
    {node : LikNode} {m' : Model} {h' : Heap} {l : LinkFun} {p : String}
    {lk : LikName}
    (hl : inst.getattr "link" = some (.linkA l))
    (hp : inst.getattr "parent" = some (.strA p))
    (hk : inst.getattr "likelihood" = some (.likA lk))
    (hok : createLikelihood inst nm0 yEst yData ma amb h = .ok (node, m', h')) :
    ∃ pr m1 h1 d,
      getPriorsM inst ma amb nm0 h = .ok (pr, m1, h1) ∧
      h1.lookup pr = some d ∧
      node = ⟨lk, prefName nm0 ++ "y", yData,
        dictSet d p (.expr (applyLink l yEst))⟩ ∧
      m' = ⟨m1.rvs, m1.obs ++ [node]⟩ ∧
      h' = h1.writeKey pr p (.expr (applyLink l yEst)) := by
  unfold createLikelihood at hok
  cases hgp : getPriorsM inst ma amb nm0 h with
  | error e => simp [hgp] at hok
  | ok res =>
    obtain ⟨pr, m1, h1⟩ := res
    simp only [hgp, hl, hp, hk] at hok
    cases hd2 : (h1.writeKey pr p (.expr (applyLink l yEst))).lookup pr with
    | none => simp [hd2] at hok
    | some params =>
      simp only [hd2, Except.ok.injEq, Prod.mk.injEq] at hok
      rw [Heap.lookup_writeKey_self] at hd2
      cases hd1 : h1.lookup pr with
      | none => rw [hd1] at hd2; simp at hd2
      | some d =>
        rw [hd1] at hd2
        simp only [Option.map_some', Option.some.injEq] at hd2
        have hpar : params = dictSet d p (.expr (applyLink l yEst)) := hd2.symm
        obtain ⟨hnode, hm, hh⟩ := hok
        refine ⟨pr, m1, h1, d, rfl, hd1, ?_, ?_, hh.symm⟩
        · rw [← hnode, hpar]
        · rw [← hm, ← hnode]

/-! ## Theorems -/

/-- C9: the four link functions satisfy: identity returns its input
unchanged; inverse equals the reciprocal on every nonzero input; logit
(the logistic sigmoid) maps every real input into the open interval
(0,1); and exp's output is always positive. -/
theorem C9_link_function_identities :
    (∀ (env : String → ℝ) (e : TensorExpr),
      evalExpr env (applyLink .identity e) = evalExpr env e) ∧
    (∀ (env : String → ℝ) (e : TensorExpr), evalExpr env e ≠ 0 →
      evalExpr env (applyLink .inverse e) = 1 / evalExpr env e) ∧
    (∀ (env : String → ℝ) (e : TensorExpr),
      0 < evalExpr env (applyLink .logit e) ∧
      evalExpr env (applyLink .logit e) < 1) ∧
    (∀ (env : String → ℝ) (e : TensorExpr),
      0 < evalExpr env (applyLink .exp e)) := by
  refine ⟨fun env e => rfl, fun env e h => ?_, fun env e => ?_, fun env e => ?_⟩
  · simp [applyLink, evalExpr, one_div]
  · have hx : 0 < Real.exp (-(evalExpr env e)) := Real.exp_pos _
    constructor
    · simp only [applyLink, evalExpr]
      positivity
    · simp only [applyLink, evalExpr]
      rw [div_lt_one (by positivity)]
      linarith
  · simp only [applyLink, evalExpr]
    exact Real.exp_pos _

/-- Witness for C9: the inverse link evaluated at the concrete input 2. -/
theorem C9_link_function_identities_witness :
    evalExpr (fun _ => (2 : ℝ)) (.var "x") ≠ 0 ∧
      evalExpr (fun _ => (2 : ℝ)) (applyLink .inverse (.var "x")) =
        1 / evalExpr (fun _ => (2 : ℝ)) (.var "x") := by
  have h : evalExpr (fun _ => (2 : ℝ)) (.var "x") ≠ 0 := by
    norm_num [evalExpr]
  exact ⟨h, C9_link_function_identities.2.1 _ _ h⟩

/-- C8: `_get_priors` (and hence `create_likelihood`) fails with the
error propagated from the host framework's context lookup whenever no
model is supplied and no ambient context is active — for every instance,
so in particular even for a default `Binomial`, whose priors are all
numeric constants needing no registration (last conjunct: with a context
available the very same call succeeds without registering anything). -/
theorem C8_requires_model_context :
    (∀ (inst : FamilyInst) (nm0 : String) (h : Heap),
      getPriorsM inst none none nm0 h = .error (.typeError, none)) ∧
    (∀ (inst : FamilyInst) (nm0 : String) (yEst : TensorExpr)
        (yData : List ℚ) (h : Heap),
      createLikelihood inst nm0 yEst yData none none h =
        .error (.typeError, none)) ∧
    (∀ (m : Model) (nm0 : String),
      getPriorsM binomialDefault none (some m) nm0 initialHeap =
        .ok (2, m, ⟨[(2, [("n", DVal.num 1)]), (0, []), (1, [("n", DVal.num 1)])], 3⟩)) :=
  ⟨fun _ _ _ => rfl, fun _ _ _ _ _ => rfl, fun _ _ => rfl⟩

/-- C4: for each family whose class-level `priors` is `None` (StudentT,
Normal, Poisson, NegativeBinomial), `_get_priors` and
`create_likelihood` on a default-constructed instance raise an
`AttributeError` when the `None` prior mapping is iterated, with the
model state unchanged (no prior variable or likelihood node registered),
and construction with a priors override fails when updating the `None`
mapping, for any override value; only Binomial's default prior mapping
is usable (final conjunct). -/
theorem C4_none_priors_families_error :
    (∀ (m : Model) (nm0 : String) (hp : Heap) (yEst : TensorExpr)
        (yData : List ℚ) (v : Attr),
      (getPriorsM ⟨StudentTClass, []⟩ none (some m) nm0 hp =
          .error (.attributeError, some m) ∧
        createLikelihood ⟨StudentTClass, []⟩ nm0 yEst yData none (some m) hp =
          .error (.attributeError, some m) ∧
        familyInit StudentTClass [("priors", v)] hp = .error .attributeError) ∧
      (getPriorsM ⟨NormalClass, []⟩ none (some m) nm0 hp =
          .error (.attributeError, some m) ∧
        createLikelihood ⟨NormalClass, []⟩ nm0 yEst yData none (some m) hp =
          .error (.attributeError, some m) ∧
        familyInit NormalClass [("priors", v)] hp = .error .attributeError) ∧
      (getPriorsM ⟨PoissonClass, []⟩ none (some m) nm0 hp =
          .error (.attributeError, some m) ∧
        createLikelihood ⟨PoissonClass, []⟩ nm0 yEst yData none (some m) hp =
          .error (.attributeError, some m) ∧
        familyInit PoissonClass [("priors", v)] hp = .error .attributeError) ∧
      (getPriorsM ⟨NegativeBinomialClass, []⟩ none (some m) nm0 hp =
          .error (.attributeError, some m) ∧
        createLikelihood ⟨NegativeBinomialClass, []⟩ nm0 yEst yData none (some m) hp =
          .error (.attributeError, some m) ∧
        familyInit NegativeBinomialClass [("priors", v)] hp =
          .error .attributeError)) ∧
    (∀ (m : Model) (nm0 : String),
      getPriorsM binomialDefault none (some m) nm0 initialHeap =
        .ok (2, m, ⟨[(2, [("n", DVal.num 1)]), (0, []), (1, [("n", DVal.num 1)])], 3⟩)) :=
  ⟨fun _ _ _ _ _ _ =>
    ⟨⟨rfl, rfl, rfl⟩, ⟨rfl, rfl, rfl⟩, ⟨rfl, rfl, rfl⟩, ⟨rfl, rfl, rfl⟩⟩,
   fun _ _ => rfl⟩

/-- C5: `Binomial()` has default priors equal to the dictionary with the
single entry n = 1; constructing `Binomial(priors = dict with n = 5)`
merges that override in; resolving priors on the result passes n = 5
through as a constant (the model stays empty: nothing is registered);
and the likelihood node is constructed with parameter p set to
logit(estimate). -/
theorem C5_binomial_scenario :
    binomialDefault.getattr "priors" = some (.dictRef 1) ∧
    initialHeap.lookup 1 = some [("n", DVal.num 1)] ∧
    familyInit BinomialClass [("priors", Attr.dictRef 2)]
        ⟨[(2, [("n", DVal.num 5)]), (0, []), (1, [("n", DVal.num 1)])], 3⟩ =
      .ok (⟨BinomialClass, [("priors", Attr.dictRef 3)]⟩,
        ⟨[(3, [("n", DVal.num 5)]), (2, [("n", DVal.num 5)]), (0, []),
          (1, [("n", DVal.num 1)])], 4⟩) ∧
    getPriorsM ⟨BinomialClass, [("priors", Attr.dictRef 3)]⟩ none
        (some ⟨[], []⟩) ""
        ⟨[(3, [("n", DVal.num 5)]), (2, [("n", DVal.num 5)]), (0, []),
          (1, [("n", DVal.num 1)])], 4⟩ =
      .ok (4, ⟨[], []⟩,
        ⟨[(4, [("n", DVal.num 5)]), (3, [("n", DVal.num 5)]),
          (2, [("n", DVal.num 5)]), (0, []), (1, [("n", DVal.num 1)])], 5⟩) ∧
    (∃ m2 h2,
      createLikelihood ⟨BinomialClass, [("priors", Attr.dictRef 3)]⟩ ""
          (.var "x") [] none (some ⟨[], []⟩)
          ⟨[(3, [("n", DVal.num 5)]), (2, [("n", DVal.num 5)]), (0, []),
            (1, [("n", DVal.num 1)])], 4⟩ =
        .ok (⟨.binomial, "y", [],
          [("n", DVal.num 5), ("p", .expr (.sigmoid (.var "x")))]⟩, m2, h2)) :=
  ⟨rfl, rfl, rfl, rfl, _, _, rfl⟩

/-- C1: for every Family instance and every estimate, `create_likelihood`
overwrites the `parent` entry of the resolved prior mapping with
`link(estimate)` before constructing the likelihood node: the parameter
mapping the node is built with maps `parent` to `link(estimate)`
whatever `self.priors` contained — any same-named prior supplied as an
override at construction is ignored for that slot. -/
theorem C1_parent_entry_overwritten {inst : FamilyInst} {nm0 : String}
    {yEst : TensorExpr} {yData : List ℚ} {ma amb : Option Model} {h : Heap}
    {node : LikNode} {m' : Model} {h' : Heap} {l : LinkFun} {p : String}
    {lk : LikName}
    (hl : inst.getattr "link" = some (.linkA l))
    (hp : inst.getattr "parent" = some (.strA p))
    (hk : inst.getattr "likelihood" = some (.likA lk))
    (hok : createLikelihood inst nm0 yEst yData ma amb h = .ok (node, m', h')) :
    dlookup p node.params = some (.expr (applyLink l yEst)) := by
  obtain ⟨pr, m1, h1, d, _, _, hnode, _, _⟩ :=
    createLikelihood_ok_spec hl hp hk hok
  rw [hnode]
  exact dlookup_dictSet_self d p _

def c1heap : Heap := ⟨[(0, [("p", DVal.dist "Beta"), ("n", DVal.num 1)])], 1⟩

def c1inst : FamilyInst := ⟨BinomialClass, [("priors", Attr.dictRef 0)]⟩

def c1node : LikNode :=
  ⟨.binomial, "y", [], [("p", .expr (.sigmoid (.var "x"))), ("n", DVal.num 1)]⟩

def c1model : Model := ⟨[("p", DVal.dist "Beta")], [c1node]⟩

def c1heap2 : Heap :=
  ⟨[(1, [("p", .expr (.sigmoid (.var "x"))), ("n", DVal.num 1)]),
    (0, [("p", DVal.dist "Beta"), ("n", DVal.num 1)])], 2⟩

/-- Witness for C1: a Binomial instance constructed with a user-supplied
prior under the parent's name "p"; the likelihood node's "p" parameter
is nevertheless the link-transformed estimate. -/
theorem C1_witness :
    c1inst.getattr "link" = some (.linkA .logit) ∧
    c1inst.getattr "parent" = some (.strA "p") ∧
    c1inst.getattr "likelihood" = some (.likA .binomial) ∧
    createLikelihood c1inst "" (.var "x") [] none (some ⟨[], []⟩) c1heap =
      .ok (c1node, c1model, c1heap2) ∧
    dlookup "p" c1node.params = some (.expr (applyLink .logit (.var "x"))) := by
  refine ⟨rfl, rfl, rfl, rfl, ?_⟩
  exact C1_parent_entry_overwritten
    (show c1inst.getattr "link" = some (.linkA .logit) from rfl)
    (show c1inst.getattr "parent" = some (.strA "p") from rfl)
    (show c1inst.getattr "likelihood" = some (.likA .binomial) from rfl)
    (show createLikelihood c1inst "" (.var "x") [] none (some ⟨[], []⟩) c1heap =
      .ok (c1node, c1model, c1heap2) from rfl)

/-- C2: `_get_priors` returns a mapping whose key set equals the key set
of the instance's priors mapping; numeric entries (numbers and arrays)
are returned unchanged and are not registered; every other entry is
replaced by the handle of a random variable registered in the model
context. -/
theorem C2_resolve_priors_contract {inst : FamilyInst} {m m' : Model}
    {nm0 : String} {h h' : Heap} {r pr : Nat} {entries res : DictEntries}
    (hpri : inst.getattr "priors" = some (.dictRef r))
    (hr : h.lookup r = some entries)
    (hnd : (entries.map Prod.fst).Nodup)
    (hok : getPriorsM inst none (some m) nm0 h = .ok (pr, m', h'))
    (hres : h'.lookup pr = some res) :
    res.map Prod.fst = entries.map Prod.fst ∧
    (∀ k v, (k, v) ∈ entries → isNumericDVal v = true → (k, v) ∈ res) ∧
    (∀ k v, (k, v) ∈ entries → isNumericDVal v = false →
      (k, DVal.rv (prefName nm0 ++ k)) ∈ res ∧
      (prefName nm0 ++ k, v) ∈ m'.rvs) ∧
    m'.rvs = m.rvs ++ entries.filterMap (regOf (prefName nm0)) ∧
    m'.obs = m.obs := by
  obtain ⟨hpr, hm, hlook, _, _⟩ := getPriorsM_ok_spec hpri hr hnd hok
  rw [hlook] at hres
  have hres2 : res = entries.map (resolveEntry (prefName nm0)) :=
    (Option.some.inj hres).symm
  subst hres2
  refine ⟨?_, ?_, ?_, ?_, ?_⟩
  · rw [List.map_map]
    refine List.map_congr_left ?_
    intro kv _
    simp [Function.comp, resolveEntry, apply_ite]
  · intro k v hmem hnum
    have := List.mem_map_of_mem (resolveEntry (prefName nm0)) hmem
    rwa [show resolveEntry (prefName nm0) (k, v) = (k, v) by
      simp [resolveEntry, hnum]] at this
  · intro k v hmem hnn
    constructor
    · have := List.mem_map_of_mem (resolveEntry (prefName nm0)) hmem
      rwa [show resolveEntry (prefName nm0) (k, v) =
          (k, DVal.rv (prefName nm0 ++ k)) by simp [resolveEntry, hnn]] at this
    · rw [hm]
      exact List.mem_append_right _
        (List.mem_filterMap.mpr ⟨(k, v), hmem, by simp [regOf, hnn]⟩)
  · rw [hm]
  · rw [hm]

def c2heap : Heap :=
  ⟨[(0, [("lam", DVal.dist "HalfCauchy"), ("nu", DVal.num 1)])], 1⟩

def c2inst : FamilyInst := ⟨StudentTClass, [("priors", Attr.dictRef 0)]⟩

def c2entries : DictEntries := [("lam", DVal.dist "HalfCauchy"), ("nu", DVal.num 1)]

def c2res : DictEntries := [("lam", DVal.rv "g_lam"), ("nu", DVal.num 1)]

def c2model2 : Model := ⟨[("g_lam", DVal.dist "HalfCauchy")], []⟩

def c2heap2 : Heap := ⟨[(1, c2res), (0, c2entries)], 2⟩

/-- Witness for C2: a StudentT instance with a symbolic and a numeric
prior, resolved under the prefix "g". -/
theorem C2_witness :
    c2inst.getattr "priors" = some (.dictRef 0) ∧
    c2heap.lookup 0 = some c2entries ∧
    (c2entries.map Prod.fst).Nodup ∧
    getPriorsM c2inst none (some ⟨[], []⟩) "g" c2heap =
      .ok (1, c2model2, c2heap2) ∧
    c2heap2.lookup 1 = some c2res ∧
    c2res.map Prod.fst = c2entries.map Prod.fst := by
  refine ⟨rfl, rfl, by decide, rfl, rfl, ?_⟩
  exact (C2_resolve_priors_contract
    (show c2inst.getattr "priors" = some (.dictRef 0) from rfl)
    (show c2heap.lookup 0 = some c2entries from rfl)
    (by decide)
    (show getPriorsM c2inst none (some ⟨[], []⟩) "g" c2heap =
      .ok (1, c2model2, c2heap2) from rfl)
    (show c2heap2.lookup 1 = some c2res from rfl)).1

/-- C6: naming is prefix-based: `create_likelihood` with an empty name
constructs a likelihood node named "y" and with name "g" a node named
"g_y"; and `_get_priors` registers each non-numeric prior under the key
prefixed by the name followed by an underscore when a non-empty prefix
is supplied, else under the bare key (the last two conjuncts exhibit the
mangling on both cases). -/
theorem C6_prefix_naming {inst0 instg inst3 : FamilyInst}
    {yEst0 yEstg : TensorExpr} {yData0 yDatag : List ℚ}
    {ma0 mag amb0 ambg : Option Model}
    {h0 hg h3 : Heap} {node0 nodeg : LikNode} {mA mB : Model} {hA hB : Heap}
    {l0 lg : LinkFun} {p0 pg : String} {lk0 lkg : LikName}
    {m3 m3' : Model} {nm3 : String} {r3 pr3 : Nat} {h3' : Heap}
    {entries3 : DictEntries} {k : String} {v : DVal}
    (hl0 : inst0.getattr "link" = some (.linkA l0))
    (hp0 : inst0.getattr "parent" = some (.strA p0))
    (hk0 : inst0.getattr "likelihood" = some (.likA lk0))
    (hok0 : createLikelihood inst0 "" yEst0 yData0 ma0 amb0 h0 =
      .ok (node0, mA, hA))
    (hlg : instg.getattr "link" = some (.linkA lg))
    (hpg : instg.getattr "parent" = some (.strA pg))
    (hkg : instg.getattr "likelihood" = some (.likA lkg))
    (hokg : createLikelihood instg "g" yEstg yDatag mag ambg hg =
      .ok (nodeg, mB, hB))
    (hpri3 : inst3.getattr "priors" = some (.dictRef r3))
    (hr3 : h3.lookup r3 = some entries3)
    (hnd3 : (entries3.map Prod.fst).Nodup)
    (hgp : getPriorsM inst3 none (some m3) nm3 h3 = .ok (pr3, m3', h3'))
    (hkv : (k, v) ∈ entries3) (hnn : isNumericDVal v = false) :
    node0.name = "y" ∧ nodeg.name = "g_y" ∧
    (prefName nm3 ++ k, v) ∈ m3'.rvs ∧
    prefName "" = "" ∧ prefName "g" = "g_" := by
  obtain ⟨pr0, m10, h10, d0, _, _, hnode0, _, _⟩ :=
    createLikelihood_ok_spec hl0 hp0 hk0 hok0
  obtain ⟨prg, m1g, h1g, dg, _, _, hnodeg, _, _⟩ :=
    createLikelihood_ok_spec hlg hpg hkg hokg
  obtain ⟨_, hm3, _, _, _⟩ := getPriorsM_ok_spec hpri3 hr3 hnd3 hgp
  refine ⟨?_, ?_, ?_, by decide, by decide⟩
  · rw [hnode0]
    show prefName "" ++ "y" = "y"
    decide
  · rw [hnodeg]
    show prefName "g" ++ "y" = "g_y"
    decide
  · rw [hm3]
    exact List.mem_append_right _
      (List.mem_filterMap.mpr ⟨(k, v), hkv, by simp [regOf, hnn]⟩)

def c6nodeg : LikNode :=
  ⟨.binomial, "g_y", [], [("p", .expr (.sigmoid (.var "x"))), ("n", DVal.num 1)]⟩

def c6modelg : Model := ⟨[("g_p", DVal.dist "Beta")], [c6nodeg]⟩

/-- Witness for C6: the Binomial instance of C1 built once with an empty
name and once with name "g", plus the StudentT resolution of C2 whose
symbolic prior "lam" is registered as "g_lam". -/
theorem C6_witness :
    c1inst.getattr "link" = some (.linkA .logit) ∧
    c1inst.getattr "parent" = some (.strA "p") ∧
    c1inst.getattr "likelihood" = some (.likA .binomial) ∧
    createLikelihood c1inst "" (.var "x") [] none (some ⟨[], []⟩) c1heap =
      .ok (c1node, c1model, c1heap2) ∧
    createLikelihood c1inst "g" (.var "x") [] none (some ⟨[], []⟩) c1heap =
      .ok (c6nodeg, c6modelg, c1heap2) ∧
    c2inst.getattr "priors" = some (.dictRef 0) ∧
    c2heap.lookup 0 = some c2entries ∧
    (c2entries.map Prod.fst).Nodup ∧
    getPriorsM c2inst none (some ⟨[], []⟩) "g" c2heap =
      .ok (1, c2model2, c2heap2) ∧
    ("lam", DVal.dist "HalfCauchy") ∈ c2entries ∧
    isNumericDVal (DVal.dist "HalfCauchy") = false ∧
    c1node.name = "y" ∧ c6nodeg.name = "g_y" ∧
    (prefName "g" ++ "lam", DVal.dist "HalfCauchy") ∈ c2model2.rvs := by
  have happ := C6_prefix_naming
    (show c1inst.getattr "link" = some (.linkA .logit) from rfl)
    (show c1inst.getattr "parent" = some (.strA "p") from rfl)
    (show c1inst.getattr "likelihood" = some (.likA .binomial) from rfl)
    (show createLikelihood c1inst "" (.var "x") [] none (some ⟨[], []⟩) c1heap =
      .ok (c1node, c1model, c1heap2) from rfl)
    (show c1inst.getattr "link" = some (.linkA .logit) from rfl)
    (show c1inst.getattr "parent" = some (.strA "p") from rfl)
    (show c1inst.getattr "likelihood" = some (.likA .binomial) from rfl)
    (show createLikelihood c1inst "g" (.var "x") [] none (some ⟨[], []⟩) c1heap =
      .ok (c6nodeg, c6modelg, c1heap2) from rfl)
    (show c2inst.getattr "priors" = some (.dictRef 0) from rfl)
    (show c2heap.lookup 0 = some c2entries from rfl)
    (by decide)
    (show getPriorsM c2inst none (some ⟨[], []⟩) "g" c2heap =
      .ok (1, c2model2, c2heap2) from rfl)
    (show ("lam", DVal.dist "HalfCauchy") ∈ c2entries by decide)
    (by decide)
  exact ⟨rfl, rfl, rfl, rfl, rfl, rfl, rfl, by decide, rfl,
    by decide, by decide, happ.1, happ.2.1, happ.2.2.1⟩

/-! ## Construction (`__init__`) lemmas -/

theorem initLoop_no_priors :
    ∀ (kwargs : List (String × Attr)) (h : Heap) (inst : FamilyInst),
      "priors" ∉ kwargs.map Prod.fst →
      initLoop h inst kwargs = .ok (⟨inst.cls, dictUpdate inst.idict kwargs⟩, h) := by
  intro kwargs
  induction kwargs with
  | nil => intro h inst _; rfl
  | cons kv rest ih =>
    intro h inst hnp
    obtain ⟨k, v⟩ := kv
    simp only [List.map_cons, List.mem_cons, not_or] at hnp
    have hne : ¬(k = "priors") := fun hc => hnp.1 hc.symm
    simp only [initLoop, hne, if_false]
    rw [ih h (inst.setattr k v) hnp.2]
    rfl

theorem initLoop_priors_merge {cls : List (String × Attr)} {h : Heap}
    {r rOv : Nat} {de ov : DictEntries}
    (hwf : h.WF)
    (hcls : dlookup "priors" cls = some (.dictRef r))
    (hde : h.lookup r = some de)
    (hov : h.lookup rOv = some ov) :
    familyInit cls [("priors", Attr.dictRef rOv)] h =
      .ok (⟨cls, [("priors", Attr.dictRef h.next)]⟩,
        (h.alloc de).2.setEntries h.next (dictUpdate de ov)) ∧
    ((h.alloc de).2.setEntries h.next (dictUpdate de ov)).lookup h.next =
      some (dictUpdate de ov) ∧
    ((h.alloc de).2.setEntries h.next (dictUpdate de ov)).lookup r = some de ∧
    h.next ≠ r := by
  have hovne : rOv ≠ h.next := Nat.ne_of_lt (Heap.lookup_lt_next hwf hov)
  have hrne : r ≠ h.next := Nat.ne_of_lt (Heap.lookup_lt_next hwf hde)
  have h1 : Heap.lookup ⟨(h.next, de) :: h.dicts, h.next + 1⟩ rOv = some ov := by
    have h2 := Heap.lookup_alloc_of_ne h de hovne
    simp only [Heap.alloc] at h2
    rw [h2]; exact hov
  refine ⟨?_, ?_, ?_, Ne.symm hrne⟩
  · simp only [familyInit, initLoop, FamilyInst.getattr, dlookup, hcls, hde, h1,
      if_true, Heap.alloc, FamilyInst.setattr, dictSet]
  · rw [Heap.lookup_setEntries_self]
    have h2 : (h.alloc de).2.lookup h.next = some de := Heap.lookup_alloc_self h de
    rw [h2]
    rfl
  · rw [Heap.lookup_setEntries_of_ne _ hrne, Heap.lookup_alloc_of_ne h de hrne]
    exact hde

/-- C7: Family construction processes every keyword override: any key
other than "priors" sets the attribute of that name directly on the
instance, with no validation of keys or value types — construction
always succeeds and records exactly the supplied attributes (so `link`,
`likelihood` and `parent` can each be overridden per instance); for the
key "priors" the base mapping is shallow-copied into a fresh dictionary
object and updated with the supplied entries rather than replaced. -/
theorem C7_construction_overrides :
    (∀ (cls kwargs : List (String × Attr)) (h : Heap),
      "priors" ∉ kwargs.map Prod.fst →
      familyInit cls kwargs h = .ok (⟨cls, dictUpdate [] kwargs⟩, h)) ∧
    (∀ (cls : List (String × Attr)) (h : Heap) (r rOv : Nat)
        (de ov : DictEntries),
      h.WF →
      dlookup "priors" cls = some (.dictRef r) →
      h.lookup r = some de →
      h.lookup rOv = some ov →
      familyInit cls [("priors", Attr.dictRef rOv)] h =
        .ok (⟨cls, [("priors", Attr.dictRef h.next)]⟩,
          (h.alloc de).2.setEntries h.next (dictUpdate de ov)) ∧
      ((h.alloc de).2.setEntries h.next (dictUpdate de ov)).lookup h.next =
        some (dictUpdate de ov)) := by
  constructor
  · intro cls kwargs h hnp
    exact initLoop_no_priors kwargs h ⟨cls, []⟩ hnp
  · intro cls h r rOv de ov hwf hcls hde hov
    obtain ⟨hfi, hself, _, _⟩ := initLoop_priors_merge hwf hcls hde hov
    exact ⟨hfi, hself⟩

def c7heap : Heap :=
  ⟨[(2, [("n", DVal.num 5)]), (0, []), (1, [("n", DVal.num 1)])], 3⟩

/-- Witness for C7: a StudentT instance constructed with a per-instance
link override and an arbitrary extra attribute (no validation), and a
Binomial instance constructed with a priors override merged into a
fresh copy of the class default. -/
theorem C7_witness :
    "priors" ∉ ([("link", Attr.linkA .exp), ("foo", Attr.numA 3)].map Prod.fst) ∧
    familyInit StudentTClass [("link", Attr.linkA .exp), ("foo", Attr.numA 3)]
        initialHeap =
      .ok (⟨StudentTClass, [("link", Attr.linkA .exp), ("foo", Attr.numA 3)]⟩,
        initialHeap) ∧
    c7heap.WF ∧
    familyInit BinomialClass [("priors", Attr.dictRef 2)] c7heap =
      .ok (⟨BinomialClass, [("priors", Attr.dictRef 3)]⟩,
        (c7heap.alloc [("n", DVal.num 1)]).2.setEntries 3
          (dictUpdate [("n", DVal.num 1)] [("n", DVal.num 5)])) ∧
    ((c7heap.alloc [("n", DVal.num 1)]).2.setEntries 3
        (dictUpdate [("n", DVal.num 1)] [("n", DVal.num 5)])).lookup 3 =
      some [("n", DVal.num 5)] := by
  have hA := C7_construction_overrides.1 StudentTClass
    [("link", Attr.linkA .exp), ("foo", Attr.numA 3)] initialHeap (by decide)
  have hB := C7_construction_overrides.2 BinomialClass c7heap 1 2
    [("n", DVal.num 1)] [("n", DVal.num 5)] (by decide) rfl rfl rfl
  exact ⟨by decide, hA, by decide, hB.1, hB.2⟩

/-- The deep-copy property the spec asserts for a given construction:
were the default prior mapping deep-copied, no mutable array object
referenced from the new instance's prior mapping would also be
referenced from the class-level default mapping. -/
def deepCopiedPriors (cls kwargs : List (String × Attr)) (h : Heap) : Prop :=
  ∀ (inst : FamilyInst) (h' : Heap) (rI rC : Nat) (eI eC : DictEntries),
    familyInit cls kwargs h = .ok (inst, h') →
    inst.getattr "priors" = some (.dictRef rI) →
    dlookup "priors" cls = some (.dictRef rC) →
    h'.lookup rI = some eI → h'.lookup rC = some eC →
    ∀ (a : Nat) (k1 k2 : String),
      (k1, DVal.arr a) ∈ eI → (k2, DVal.arr a) ∈ eC → False

def sharedArrClass : List (String × Attr) := [("priors", .dictRef 0)]

def sharedArrHeap : Heap :=
  ⟨[(0, [("s", DVal.arr 7)]), (1, [("extra", DVal.num 5)])], 2⟩

/-- Counterexample for C3 as stated: the constructor does NOT deep-copy
the default prior mapping. On a subclass whose default priors hold a
numeric array (array-valued priors are explicitly supported by
`_get_priors`), constructing with a priors override leaves the array
object of the untouched entry shared by reference between the new
instance's mapping and the class default — `Family.__init__` uses
`copy.copy`, a shallow copy. -/
theorem C3_counterexample_shallow :
    ¬ deepCopiedPriors sharedArrClass [("priors", Attr.dictRef 1)] sharedArrHeap := by
  intro hdc
  exact hdc ⟨sharedArrClass, [("priors", Attr.dictRef 2)]⟩
    ⟨[(2, [("s", DVal.arr 7), ("extra", DVal.num 5)]), (0, [("s", DVal.arr 7)]),
      (1, [("extra", DVal.num 5)])], 3⟩
    2 0 [("s", DVal.arr 7), ("extra", DVal.num 5)] [("s", DVal.arr 7)]
    rfl rfl rfl rfl rfl 7 "s" "s" (by decide) (by decide)

/-- C3 (amended): constructing a Family subclass instance with a priors
override SHALLOW-copies the default prior mapping before updating it in
place: a fresh dictionary object is allocated, so the merged
per-instance mapping contains both the subclass defaults and the
supplied entries and the class-level default mapping keeps its entries
unmodified; but the values inside the mapping are not copied — every
entry not overridden is carried over identically (sharing any mutable
array object by reference with the class default). -/
theorem C3_shallow_copy_merge
    (cls : List (String × Attr)) (h : Heap) (r rOv : Nat) (de ov : DictEntries)
    (hwf : h.WF)
    (hcls : dlookup "priors" cls = some (.dictRef r))
    (hde : h.lookup r = some de)
    (hov : h.lookup rOv = some ov)
    (hnd : (ov.map Prod.fst).Nodup) :
    familyInit cls [("priors", Attr.dictRef rOv)] h =
      .ok (⟨cls, [("priors", Attr.dictRef h.next)]⟩,
        (h.alloc de).2.setEntries h.next (dictUpdate de ov)) ∧
    h.next ≠ r ∧
    ((h.alloc de).2.setEntries h.next (dictUpdate de ov)).lookup h.next =
      some (dictUpdate de ov) ∧
    ((h.alloc de).2.setEntries h.next (dictUpdate de ov)).lookup r = some de ∧
    (∀ k w, (k, w) ∈ ov → (k, w) ∈ dictUpdate de ov) ∧
    (∀ k w, (k, w) ∈ de → k ∉ ov.map Prod.fst → (k, w) ∈ dictUpdate de ov) := by
  obtain ⟨hfi, hself, hr, hner⟩ := initLoop_priors_merge hwf hcls hde hov
  exact ⟨hfi, hner, hself, hr, mem_dictUpdate_right ov de hnd,
    fun k w hm hk => mem_dictUpdate_left ov hm hk⟩

/-- Witness for the amended C3, at the shared-array input of the
counterexample: the merged mapping holds both the default array entry
(shared by reference: still `arr 7`) and the supplied entry, and the
class default mapping is unchanged. -/
theorem C3_witness :
    sharedArrHeap.WF ∧
    dlookup "priors" sharedArrClass = some (Attr.dictRef 0) ∧
    sharedArrHeap.lookup 0 = some [("s", DVal.arr 7)] ∧
    sharedArrHeap.lookup 1 = some [("extra", DVal.num 5)] ∧
    ([("extra", DVal.num 5)].map (Prod.fst (α := String) (β := DVal))).Nodup ∧
    familyInit sharedArrClass [("priors", Attr.dictRef 1)] sharedArrHeap =
      .ok (⟨sharedArrClass, [("priors", Attr.dictRef 2)]⟩,
        (sharedArrHeap.alloc [("s", DVal.arr 7)]).2.setEntries 2
          (dictUpdate [("s", DVal.arr 7)] [("extra", DVal.num 5)])) ∧
    ("s", DVal.arr 7) ∈ dictUpdate [("s", DVal.arr 7)] [("extra", DVal.num 5)] ∧
    ("extra", DVal.num 5) ∈ dictUpdate [("s", DVal.arr 7)] [("extra", DVal.num 5)] := by
  have happ := C3_shallow_copy_merge sharedArrClass sharedArrHeap 0 1
    [("s", DVal.arr 7)] [("extra", DVal.num 5)] (by decide) rfl rfl rfl (by decide)
  exact ⟨by decide, rfl, rfl, rfl, by decide, happ.1,
    happ.2.2.2.2.2 "s" (DVal.arr 7) (by decide) (by decide),
    happ.2.2.2.2.1 "extra" (DVal.num 5) (by decide)⟩

/-- C10: for every Family instance whose priors attribute is a
dictionary, a successful `create_likelihood` call leaves the stored
prior mapping unchanged: the parent-key overwrite and the name
prefixing are applied to the freshly allocated mapping built by
`_get_priors`, so the dictionary object referenced by the instance's
priors attribute holds the same entries after the call as before. -/
theorem C10_stored_priors_unchanged {inst : FamilyInst} {nm0 : String}
    {yEst : TensorExpr} {yData : List ℚ} {ma amb : Option Model} {h : Heap}
    {node : LikNode} {m' : Model} {h' : Heap} {r : Nat}
    {l : LinkFun} {p : String} {lk : LikName}
    (hwf : h.WF)
    (hpri : inst.getattr "priors" = some (.dictRef r))
    (hl : inst.getattr "link" = some (.linkA l))
    (hp : inst.getattr "parent" = some (.strA p))
    (hk : inst.getattr "likelihood" = some (.likA lk))
    (hok : createLikelihood inst nm0 yEst yData ma amb h = .ok (node, m', h')) :
    h'.lookup r = h.lookup r := by
  obtain ⟨pr, m1, h1, d, hgp, _, _, _, hh⟩ :=
    createLikelihood_ok_spec hl hp hk hok
  obtain ⟨entries, he⟩ := getPriorsM_ok_entries hpri hgp
  obtain ⟨hpr, hframe, _⟩ := getPriorsM_frame hgp
  have hner : r ≠ h.next := Nat.ne_of_lt (Heap.lookup_lt_next hwf he)
  have hner2 : r ≠ pr := by rw [hpr]; exact hner
  rw [hh, Heap.lookup_writeKey_of_ne h1 hner2, hframe r hner]

/-- Witness for C10: the Binomial instance of C1; the dictionary its
priors attribute references holds the same entries after the call. -/
theorem C10_witness :
    c1heap.WF ∧
    c1inst.getattr "priors" = some (.dictRef 0) ∧
    c1inst.getattr "link" = some (.linkA .logit) ∧
    c1inst.getattr "parent" = some (.strA "p") ∧
    c1inst.getattr "likelihood" = some (.likA .binomial) ∧
    createLikelihood c1inst "" (.var "x") [] none (some ⟨[], []⟩) c1heap =
      .ok (c1node, c1model, c1heap2) ∧
    c1heap2.lookup 0 = c1heap.lookup 0 := by
  refine ⟨by decide, rfl, rfl, rfl, rfl, rfl, ?_⟩
  exact C10_stored_priors_unchanged (by decide)
    (show c1inst.getattr "priors" = some (.dictRef 0) from rfl)
    (show c1inst.getattr "link" = some (.linkA .logit) from rfl)
    (show c1inst.getattr "parent" = some (.strA "p") from rfl)
    (show c1inst.getattr "likelihood" = some (.likA .binomial) from rfl)
    (show createLikelihood c1inst "" (.var "x") [] none (some ⟨[], []⟩) c1heap =
      .ok (c1node, c1model, c1heap2) from rfl)

end GlmFamilies
